import Mathlib

namespace Pulse

/-! SHA-256 over `Nat`, modelling `crypto.createHash('sha256')` as used by
`TokenManager.generateHash` (tokenManager.js:36-39). Words are natural numbers
reduced modulo 2^32. -/

def w32 (x : Nat) : Nat := x % 4294967296

def rotr32 (n x : Nat) : Nat := w32 ((x >>> n) ||| (x <<< (32 - n)))

def shaCh (x y z : Nat) : Nat := (x &&& y) ^^^ ((x ^^^ 4294967295) &&& z)

def shaMaj (x y z : Nat) : Nat := (x &&& y) ^^^ (x &&& z) ^^^ (y &&& z)

def bigSigma0 (x : Nat) : Nat := rotr32 2 x ^^^ rotr32 13 x ^^^ rotr32 22 x

def bigSigma1 (x : Nat) : Nat := rotr32 6 x ^^^ rotr32 11 x ^^^ rotr32 25 x

def smallSigma0 (x : Nat) : Nat := rotr32 7 x ^^^ rotr32 18 x ^^^ (x >>> 3)

def smallSigma1 (x : Nat) : Nat := rotr32 17 x ^^^ rotr32 19 x ^^^ (x >>> 10)

def shaK : List Nat :=
  [1116352408, 1899447441, 3049323471, 3921009573, 961987163, 1508970993,
   2453635748, 2870763221, 3624381080, 310598401, 607225278, 1426881987,
   1925078388, 2162078206, 2614888103, 3248222580, 3835390401, 4022224774,
   264347078, 604807628, 770255983, 1249150122, 1555081692, 1996064986,
   2554220882, 2821834349, 2952996808, 3210313671, 3336571891, 3584528711,
   113926993, 338241895, 666307205, 773529912, 1294757372, 1396182291,
   1695183700, 1986661051, 2177026350, 2456956037, 2730485921, 2820302411,
   3259730800, 3345764771, 3516065817, 3600352804, 4094571909, 275423344,
   430227734, 506948616, 659060556, 883997877, 958139571, 1322822218,
   1537002063, 1747873779, 1955562222, 2024104815, 2227730452, 2361852424,
   2428436474, 2756734187, 3204031479, 3329325298]

def shaH0 : List Nat :=
  [1779033703, 3144134277, 1013904242, 2773480762, 1359893119, 2600822924,
   528734635, 1541459225]

/-- Big-endian byte encoding of `n` on `k` bytes. -/
def beBytes : Nat → Nat → List Nat
  | 0, _ => []
  | k + 1, n => beBytes k (n >>> 8) ++ [n % 256]

/-- SHA-256 message padding: append 0x80, zero bytes, then the 64-bit
big-endian bit length. -/
def shaPad (msg : List Nat) : List Nat :=
  let l := msg.length
  let zeros := (64 - ((l + 9) % 64)) % 64
  msg ++ [128] ++ List.replicate zeros 0 ++ beBytes 8 (8 * l)

/-- Pack bytes into big-endian 32-bit words. -/
def bytesToWords : List Nat → List Nat
  | a :: b :: c :: d :: rest => (((a * 256 + b) * 256 + c) * 256 + d) :: bytesToWords rest
  | _ => []

/-- Extend a 16-word block to the 64-word message schedule. -/
def schedAux : Nat → List Nat → List Nat
  | 0, w => w
  | n + 1, w =>
    let t := w.length
    let nw := w32 (smallSigma1 (w.getD (t - 2) 0) + w.getD (t - 7) 0 +
                   smallSigma0 (w.getD (t - 15) 0) + w.getD (t - 16) 0)
    schedAux n (w ++ [nw])

def schedule (block : List Nat) : List Nat := schedAux 48 block

structure ShaState where
  a : Nat
  b : Nat
  c : Nat
  d : Nat
  e : Nat
  f : Nat
  g : Nat
  h : Nat

def shaRound (st : ShaState) (kw : Nat × Nat) : ShaState :=
  let t1 := w32 (st.h + bigSigma1 st.e + shaCh st.e st.f st.g + kw.1 + kw.2)
  let t2 := w32 (bigSigma0 st.a + shaMaj st.a st.b st.c)
  ⟨w32 (t1 + t2), st.a, st.b, st.c, w32 (st.d + t1), st.e, st.f, st.g⟩

def compress (hs : List Nat) (block : List Nat) : List Nat :=
  let w := schedule block
  let st0 : ShaState :=
    ⟨hs.getD 0 0, hs.getD 1 0, hs.getD 2 0, hs.getD 3 0,
     hs.getD 4 0, hs.getD 5 0, hs.getD 6 0, hs.getD 7 0⟩
  let st := (shaK.zip w).foldl shaRound st0
  [w32 (hs.getD 0 0 + st.a), w32 (hs.getD 1 0 + st.b), w32 (hs.getD 2 0 + st.c),
   w32 (hs.getD 3 0 + st.d), w32 (hs.getD 4 0 + st.e), w32 (hs.getD 5 0 + st.f),
   w32 (hs.getD 6 0 + st.g), w32 (hs.getD 7 0 + st.h)]

/-- Process the padded word stream one 16-word block at a time. -/
def shaBlocks (hs : List Nat) : List Nat → List Nat
  | w0 :: w1 :: w2 :: w3 :: w4 :: w5 :: w6 :: w7 ::
    w8 :: w9 :: w10 :: w11 :: w12 :: w13 :: w14 :: w15 :: rest =>
    shaBlocks (compress hs [w0, w1, w2, w3, w4, w5, w6, w7,
                            w8, w9, w10, w11, w12, w13, w14, w15]) rest
  | _ => hs

def sha256Words (msg : List Nat) : List Nat :=
  shaBlocks shaH0 (bytesToWords (shaPad msg))

def hexChar (n : Nat) : Char :=
  if n < 10 then Char.ofNat (48 + n) else Char.ofNat (87 + n)

def wordHex (x : Nat) : List Char :=
  [hexChar ((x >>> 28) &&& 15), hexChar ((x >>> 24) &&& 15),
   hexChar ((x >>> 20) &&& 15), hexChar ((x >>> 16) &&& 15),
   hexChar ((x >>> 12) &&& 15), hexChar ((x >>> 8) &&& 15),
   hexChar ((x >>> 4) &&& 15), hexChar (x &&& 15)]

/-- UTF-8 bytes of a string (the encoding `crypto`'s `update` applies to
string input). -/
def charUtf8 (c : Char) : List Nat :=
  let n := c.toNat
  if n < 128 then [n]
  else if n < 2048 then [192 + n / 64, 128 + n % 64]
  else if n < 65536 then [224 + n / 4096, 128 + (n / 64) % 64, 128 + n % 64]
  else [240 + n / 262144, 128 + (n / 4096) % 64, 128 + (n / 64) % 64, 128 + n % 64]

def utf8Bytes (s : String) : List Nat :=
  s.data.foldr (fun c acc => charUtf8 c ++ acc) []

/-- Lowercase hex digest of the SHA-256 of a string, as
`crypto.createHash('sha256').update(data).digest('hex')` produces. -/
def sha256hex (s : String) : String :=
  String.mk ((sha256Words (utf8Bytes s)).foldr (fun wrd acc => wordHex wrd ++ acc) [])

/-! Model of the JSON values fed to `JSON.stringify` and of that
serialization (insertion-ordered object keys, no whitespace). -/

inductive Json where
  | num (n : Int)
  | str (s : String)
  | bool (b : Bool)
  | null
  | arr (xs : List Json)
  | obj (fields : List (String × Json))

def quoteJson (s : String) : String :=
  "\"" ++ String.mk (s.data.foldr (fun c acc =>
    if c == '"' then '\\' :: '"' :: acc
    else if c == '\\' then '\\' :: '\\' :: acc
    else if c == '\n' then '\\' :: 'n' :: acc
    else if c == '\r' then '\\' :: 'r' :: acc
    else if c == '\t' then '\\' :: 't' :: acc
    else c :: acc) []) ++ "\""

mutual

def jsonStr : Json → String
  | .num n => toString n
  | .str s => quoteJson s
  | .bool true => "true"
  | .bool false => "false"
  | .null => "null"
  | .arr xs => "[" ++ jsonStrArr xs ++ "]"
  | .obj fs => "\x7b" ++ jsonStrObj fs ++ "\x7d"

def jsonStrArr : List Json → String
  | [] => ""
  | [x] => jsonStr x
  | x :: rest => jsonStr x ++ "," ++ jsonStrArr rest

def jsonStrObj : List (String × Json) → String
  | [] => ""
  | [(k, v)] => quoteJson k ++ ":" ++ jsonStr v
  | (k, v) :: rest => quoteJson k ++ ":" ++ jsonStr v ++ "," ++ jsonStrObj rest

end

/-- First `n` characters of a string (`String.prototype.substring(0, n)`). -/
def strTake (s : String) (n : Nat) : String := String.mk (s.data.take n)

/-- `TokenManager.generateHash` (tokenManager.js:36-39): SHA-256 of the JSON
serialization of the summary, truncated to the first 16 hex characters. -/
def generateHash (summary : Json) : String :=
  strTake (sha256hex (jsonStr summary)) 16

/-! ## Token Store (`tokenManager.js`) -/

/-- ASCII-alphanumeric test, the character class `[a-zA-Z0-9]` of the
sanitizing regex in `createToken` (tokenManager.js:46). -/
def isAlnumAscii (c : Char) : Bool :=
  ('a' ≤ c && c ≤ 'z') || ('A' ≤ c && c ≤ 'Z') || ('0' ≤ c && c ≤ '9')

/-- `precompName.replace(/[^a-zA-Z0-9]/g, '_')`. -/
def sanitizeName (s : String) : String :=
  String.mk (s.data.map (fun c => if isAlnumAscii c then c else '_'))

/-- `path.join` on two segments, modelled with a `/` separator. -/
def joinPath (a b : String) : String := a ++ "/" ++ b

/-- A Token entity as built by `createToken` (tokenManager.js:55-74), with
the extra fields later attached through `updateStatus`'s merge
(`renderDuration`, `error`, `lastError`, `cancelled`). `status` is the raw
string the source stores. -/
structure Token where
  tokenId : String
  hash : String
  compName : String := ""
  precompName : String := ""
  layerIndex : Nat := 0
  frameRate : Nat := 0
  duration : Nat := 0
  width : Nat := 0
  height : Nat := 0
  status : String := "pending"
  renderPath : Option String := none
  createdAt : String := ""
  updatedAt : String := ""
  renderDir : String := ""
  renderFirstFrame : Option String := none
  renderDuration : Option Nat := none
  error : Option String := none
  lastError : Option String := none
  cancelled : Option Bool := none
deriving Repr, DecidableEq

/-- The descriptor handed to `createToken` (the body of `POST /token/create`). -/
structure TokenData where
  compName : String := ""
  precompName : String := ""
  layerIndex : Nat := 0
  frameRate : Nat := 0
  duration : Nat := 0
  width : Nat := 0
  height : Nat := 0
  summary : Json

/-- `TokenManager` state: the in-memory insertion-ordered token map plus the
content last handed to `fs.writeFileSync` by `saveTokens` (`none` before the
first write). -/
structure TMState where
  cacheDir : String := ""
  rendersDir : String := ""
  tokens : List (String × Token) := []
  persisted : Option (List (String × Token)) := none
deriving Repr, DecidableEq

/-- `Map.prototype.get` on the token map: the value at the first (unique)
entry whose key equals `tid`. -/
def findTok : List (String × Token) → String → Option Token
  | [], _ => none
  | p :: ps, tid => if p.1 == tid then some p.2 else findTok ps tid

/-- `Map.prototype.set`: replace in place if the key exists, else append. -/
def setTok (tokens : List (String × Token)) (tid : String) (t : Token) :
    List (String × Token) :=
  if tokens.any (fun p => p.1 == tid) then
    tokens.map (fun p => if p.1 == tid then (tid, t) else p)
  else
    tokens ++ [(tid, t)]

/-- `saveTokens` (tokenManager.js:180-189): serialize the whole entry list
and overwrite the tokens file. -/
def saveTokens (st : TMState) : TMState := { st with persisted := some st.tokens }

/-- `createToken` (tokenManager.js:44-81). `now` stands for
`new Date().toISOString()`. Returns the (existing or new) token and the
resulting store state. -/
def createToken (d : TokenData) (now : String) (st : TMState) : Token × TMState :=
  let hash := generateHash d.summary
  let tokenId := sanitizeName d.precompName ++ "_" ++ hash
  match findTok st.tokens tokenId with
  | some existing => (existing, st)
  | none =>
    let renderDir := joinPath st.rendersDir tokenId
    let t : Token :=
      { tokenId := tokenId, hash := hash, compName := d.compName,
        precompName := d.precompName, layerIndex := d.layerIndex,
        frameRate := d.frameRate, duration := d.duration, width := d.width,
        height := d.height, status := "pending",
        renderPath := some (joinPath renderDir "frames_[#####].png"),
        createdAt := now, updatedAt := now, renderDir := renderDir,
        renderFirstFrame := some (joinPath renderDir "frames_00001.png") }
    (t, saveTokens { st with tokens := setTok st.tokens tokenId t })

/-- The extra-field bags actually passed to `updateStatus` in the source
(`renderPath`/`renderDuration` on success, `error`/`lastError` on failure,
`cancelled` on cancel); `none` means the key is absent from the object. -/
structure Extra where
  renderPath : Option String := none
  renderDuration : Option Nat := none
  error : Option String := none
  lastError : Option String := none
  cancelled : Option Bool := none
deriving Repr, DecidableEq

/-- `Object.assign(token, extra)`: a key present in `extra` overwrites the
token's field, an absent key leaves it. -/
def mergeExtra (t : Token) (e : Extra) : Token :=
  { t with
    renderPath := match e.renderPath with | some v => some v | none => t.renderPath
    renderDuration := match e.renderDuration with | some v => some v | none => t.renderDuration
    error := match e.error with | some v => some v | none => t.error
    lastError := match e.lastError with | some v => some v | none => t.lastError
    cancelled := match e.cancelled with | some v => some v | none => t.cancelled }

/-- `updateStatus` (tokenManager.js:100-118): `none` and an unchanged store
when the token does not exist; otherwise set `status`, refresh `updatedAt`,
merge the extras, store, persist, and return the updated token. -/
def updateStatus (tid status : String) (e : Extra) (now : String) (st : TMState) :
    Option Token × TMState :=
  match findTok st.tokens tid with
  | none => (none, st)
  | some t =>
    let t' := mergeExtra { t with status := status, updatedAt := now } e
    (some t', saveTokens { st with tokens := setTok st.tokens tid t' })

/-- `markDirty` (tokenManager.js:123-125). -/
def markDirty (tid now : String) (st : TMState) : Option Token × TMState :=
  updateStatus tid "dirty" {} now st

/-- The first-frame disk check inside `renderExists` (tokenManager.js:135):
`token.renderFirstFrame && fs.existsSync(token.renderFirstFrame)`. `fsEx`
stands for `fs.existsSync`. -/
def rffExists (fsEx : String → Bool) (t : Token) : Bool :=
  match t.renderFirstFrame with
  | some p => fsEx p
  | none => false

/-- `renderExists` (tokenManager.js:130-140). -/
def renderExists (fsEx : String → Bool) (st : TMState) (tid : String) : Bool :=
  match findTok st.tokens tid with
  | none => false
  | some t => rffExists fsEx t

/-- The outcome of reading and parsing the tokens file in `loadTokens`:
the file is absent, reading/parsing it threw, or it parsed to an entry
list. -/
inductive FileRead where
  | absent
  | failed (msg : String)
  | content (data : List (String × Token))

/-- `new Map(data)`: left-to-right insertion, later duplicate keys
overwrite earlier ones. -/
def jsMapOfList (data : List (String × Token)) : List (String × Token) :=
  data.foldl (fun acc p => setTok acc p.1 p.2) []

/-- The per-token repair pass of `loadTokens` (tokenManager.js:203-211):
`ready` with a missing first frame drops to `pending`, and `rendering`
drops to `pending`. -/
def repairTok (fsEx : String → Bool) (t : Token) : Token :=
  let t1 := if t.status == "ready" && !(rffExists fsEx t) then
              { t with status := "pending" } else t
  if t1.status == "rendering" then { t1 with status := "pending" } else t1

/-- `loadTokens` (tokenManager.js:194-219): absent file keeps the in-memory
map, a read/parse failure resets it to empty, parsed content is loaded into
a fresh map and repaired. -/
def loadTokens (st : TMState) (file : FileRead) (fsEx : String → Bool) : TMState :=
  match file with
  | .absent => st
  | .failed _ => { st with tokens := [] }
  | .content data =>
    { st with tokens := (jsMapOfList data).map (fun p => (p.1, repairTok fsEx p.2)) }

/-! ## External Render Invoker (`aerender.js`) -/

/-- ASCII lowercasing, the effect of a `/i` regex flag on the letters used
by the filename patterns. -/
def asciiLower (c : Char) : Char :=
  if 'A' ≤ c && c ≤ 'Z' then Char.ofNat (c.toNat + 32) else c

def isDigitC (c : Char) : Bool := '0' ≤ c && c ≤ '9'

def isPrefixChars : List Char → List Char → Bool
  | [], _ => true
  | _ :: _, [] => false
  | a :: as, b :: bs => a == b && isPrefixChars as bs

/-- Substring containment (`String.prototype.includes`). -/
def containsSub (needle : List Char) : List Char → Bool
  | [] => needle.isEmpty
  | c :: rest => isPrefixChars needle (c :: rest) || containsSub needle rest

def strContains (hay needle : String) : Bool := containsSub needle.data hay.data

/-- Split a character list at its last `.`: `some (base, ext)` with the dot
dropped, `none` when there is no dot. -/
def splitLastDot : List Char → Option (List Char × List Char)
  | [] => none
  | c :: cs =>
    match splitLastDot cs with
    | some (b, e) => some (c :: b, e)
    | none => if c == '.' then some ([], cs) else none

/-- Extensions accepted by the frame-name patterns of `findFirstFrame`
(aerender.js:282-287). -/
def frameExts : List String := ["png", "exr", "tif", "tiff"]

/-- Extensions of the any-image fallback (aerender.js:298-300). -/
def imageExts : List String := ["png", "exr", "tif", "tiff", "jpg", "jpeg"]

/-- The base-name part of the frame patterns, once the extension matched:
`frame_\d+`, `frames_\d+`, `\d+`, or `.*_\d+`, case-insensitively. -/
def framePatternBody (b e : List Char) : Bool :=
  if frameExts.contains (String.mk (e.map asciiLower)) then
    let bl := b.map asciiLower
    let p1 := isPrefixChars "frame_".data bl &&
              !(bl.drop 6).isEmpty && (bl.drop 6).all isDigitC
    let p2 := isPrefixChars "frames_".data bl &&
              !(bl.drop 7).isEmpty && (bl.drop 7).all isDigitC
    let p3 := !bl.isEmpty && bl.all isDigitC
    let r := bl.reverse
    let ds := r.takeWhile isDigitC
    let p4 := !ds.isEmpty && (r.drop ds.length).head? == some '_'
    p1 || p2 || p3 || p4
  else false

/-- `^frame_\d+\.(png|exr|tif|tiff)$/i` and the three sibling patterns of
`findFirstFrame` (aerender.js:282-287), expressed on the name split at its
last dot. -/
def isFramePattern (f : String) : Bool :=
  match splitLastDot f.data with
  | none => false
  | some (b, e) => framePatternBody b e

/-- `/\.(png|exr|tif|tiff|jpg|jpeg)$/i` (aerender.js:299). -/
def hasImageExt (f : String) : Bool :=
  match splitLastDot f.data with
  | none => false
  | some (_, e) => imageExts.contains (String.mk (e.map asciiLower))

/-- Lexicographic order on UTF code points, the default
`Array.prototype.sort` comparator on these filenames. -/
def charListLe : List Char → List Char → Bool
  | [], _ => true
  | _ :: _, [] => false
  | a :: as, b :: bs => if a < b then true else if a == b then charListLe as bs else false

def strLe (a b : String) : Bool := charListLe a.data b.data

def insertLe (x : String) : List String → List String
  | [] => [x]
  | y :: ys => if strLe x y then x :: y :: ys else y :: insertLe x ys

/-- `.sort()` on a list of filenames. -/
def sortStr (l : List String) : List String := l.foldr insertLe []

/-- `findFirstFrame` (aerender.js:277-311), over the directory listing
`files` (`fs.readdirSync(renderDir)`): pattern-matched names sorted
lexicographically, first wins; otherwise any recognized image file,
sorted, first wins; otherwise `null`. -/
def findFirstFrame (renderDir : String) (files : List String) : Option String :=
  match sortStr (files.filter isFramePattern) with
  | f :: _ => some (joinPath renderDir f)
  | [] =>
    match sortStr (files.filter hasImageExt) with
    | f :: _ => some (joinPath renderDir f)
    | [] => none

/-- The structured success the render promise resolves with
(aerender.js:231-235). -/
structure RenderOk where
  renderPath : String
  duration : Nat
deriving Repr, DecidableEq

def apos : String := String.mk [Char.ofNat 39]

/-- The classification of a non-zero exit (aerender.js:244-254). -/
def classifyError (code : Int) (stdout stderr : String) : String :=
  if strContains stderr ("doesn" ++ apos ++ "t exist") then
    "Composition not found in project. Make sure the project is saved."
  else if strContains stderr "license" then
    "After Effects license issue. Make sure AE is properly licensed."
  else if strContains stderr "memory" then
    "Out of memory. Try reducing composition complexity."
  else if strContains stdout "Output Module" then
    "Output module error. The default output settings may not be compatible."
  else
    "aerender exited with code " ++ toString code

/-- The rejection message of the zero-exit, no-output path
(aerender.js:239). -/
def silentFailureMsg : String :=
  "Render completed but no output frames found. Check if the composition name is correct."

/-- What the `close` handler (aerender.js:212-258) resolves or rejects
with, together with the log lines it emits. `files` is the render
directory's listing at exit time, `dur` the elapsed seconds. -/
instance : DecidableEq (Except String RenderOk) := fun a b =>
  match a, b with
  | .ok x, .ok y => if h : x = y then .isTrue (by rw [h]) else .isFalse (by simp [h])
  | .error x, .error y => if h : x = y then .isTrue (by rw [h]) else .isFalse (by simp [h])
  | .ok _, .error _ => .isFalse (by simp)
  | .error _, .ok _ => .isFalse (by simp)

structure CloseResult where
  outcome : Except String RenderOk
  logs : List String
deriving Repr, DecidableEq

def closeHandler (code : Int) (files : List String) (stdout stderr : String)
    (renderDir tid : String) (dur : Nat) : CloseResult :=
  if code = 0 then
    match findFirstFrame renderDir files with
    | some p =>
      { outcome := .ok { renderPath := p, duration := dur },
        logs := ["Render complete for " ++ tid,
                 "  First frame: " ++ p] }
    | none =>
      { outcome := .error silentFailureMsg,
        logs := ["Render completed but no output found for " ++ tid,
                 "Check render.log in: " ++ renderDir] }
  else
    { outcome := .error (classifyError code stdout stderr),
      logs := ["aerender failed for " ++ tid ++ " with code " ++ toString code] }

/-- `Aerender.cancel` (aerender.js:316-335): reports whether a live process
was found for `tokenId`; the active map itself is not changed until the
process actually exits or the delayed force-kill fires. -/
def aerenderCancel (tid : String) (active : List String) : Bool :=
  active.contains tid

/-! ## Render Queue / Scheduler (`renderQueue.js`) -/

/-- A pending entry (renderQueue.js:33-37). -/
structure Job where
  tokenId : String
  projectPath : String
  addedAt : String
deriving Repr, DecidableEq

/-- The combined scheduler state: the pending list, the Invoker's
active-process map (as the list of its keys), and the Token Store. -/
structure QState where
  queue : List Job
  active : List String
  tm : TMState
deriving Repr, DecidableEq

/-- `RenderQueue.enqueue` (renderQueue.js:20-45): reject when already
queued, reject when already rendering per the Invoker, else append one
entry. -/
def enqueueFn (now tid ppath : String) (s : QState) : Bool × QState :=
  if s.queue.any (fun j => j.tokenId == tid) then (false, s)
  else if aerenderCancel tid s.active then (false, s)
  else (true, { s with queue := s.queue ++ [⟨tid, ppath, now⟩] })

/-- The Token Store update `executeRender` performs once the Invoker's
promise settles (renderQueue.js:92-112): `ready` plus
`renderPath`/`renderDuration` on success, `dirty` plus `error`/`lastError`
on failure. -/
def executeRenderUpdate (now tid : String) (outcome : Except String RenderOk)
    (st : TMState) : TMState :=
  match outcome with
  | .ok r =>
    (updateStatus tid "ready"
      { renderPath := some r.renderPath, renderDuration := some r.duration } now st).2
  | .error e =>
    (updateStatus tid "dirty" { error := some e, lastError := some now } now st).2

/-- `Map.prototype.set` on the active-process map keys. -/
def addActive (tid : String) (l : List String) : List String :=
  if l.contains tid then l else l ++ [tid]

/-- `RenderQueue.cancel` (renderQueue.js:132-148). -/
def cancelFn (now tid : String) (s : QState) : Bool × QState :=
  if s.queue.any (fun j => j.tokenId == tid) then
    (true, { s with queue := s.queue.eraseP (fun j => j.tokenId == tid) })
  else if aerenderCancel tid s.active then
    (true, { s with tm := (updateStatus tid "pending" { cancelled := some true } now s.tm).2 })
  else (false, s)

/-- `RenderQueue.clear` (renderQueue.js:153-158). -/
def clearFn (s : QState) : QState := { s with queue := [] }

/-- One event-loop step of the system with concurrency ceiling `N`: an
`enqueue` call, one iteration of the drain loop's dispatch (which only
fires while `getActiveCount() < concurrency`, renderQueue.js:56), a render
settling (the subprocess `close` handler removes the process and
`executeRender` records the outcome), the delayed force-kill removal, a
`cancel` call, or a `clear` call. -/
inductive Step (N : Nat) : QState → QState → Prop
  | enqueue (s : QState) (now tid ppath : String) :
      Step N s (enqueueFn now tid ppath s).2
  | dispatchMissing (s : QState) (j : Job) (rest : List Job) :
      s.queue = j :: rest → s.active.length < N →
      findTok s.tm.tokens j.tokenId = none →
      Step N s { s with queue := rest }
  | dispatchSpawn (s : QState) (j : Job) (rest : List Job) (now : String) :
      s.queue = j :: rest → s.active.length < N →
      (findTok s.tm.tokens j.tokenId).isSome →
      Step N s ⟨rest, addActive j.tokenId s.active,
                (updateStatus j.tokenId "rendering" {} now s.tm).2⟩
  | dispatchSpawnFail (s : QState) (j : Job) (rest : List Job) (now errMsg : String) :
      s.queue = j :: rest → s.active.length < N →
      (findTok s.tm.tokens j.tokenId).isSome →
      Step N s ⟨rest, s.active,
                executeRenderUpdate now j.tokenId (.error errMsg)
                  (updateStatus j.tokenId "rendering" {} now s.tm).2⟩
  | complete (s : QState) (tid : String) (outcome : Except String RenderOk) (now : String) :
      tid ∈ s.active →
      Step N s ⟨s.queue, s.active.erase tid, executeRenderUpdate now tid outcome s.tm⟩
  | killRemove (s : QState) (tid : String) :
      Step N s { s with active := s.active.erase tid }
  | cancelStep (s : QState) (now tid : String) :
      Step N s (cancelFn now tid s).2
  | clearStep (s : QState) :
      Step N s (clearFn s)

/-- States reachable from an idle start (empty pending list, no live
subprocess, any store contents). -/
inductive Reachable (N : Nat) : QState → Prop
  | init (tm : TMState) : Reachable N ⟨[], [], tm⟩
  | step {s s' : QState} : Reachable N s → Step N s s' → Reachable N s'

/-! ## Concrete scenario data used by witnesses, and small helpers -/

/-- Concrete scenario for the C1 witness: one token in the store, one
enqueue, one dispatch under concurrency 1. -/
def tokW : Token := { tokenId := "T1_x", hash := "x" }

def tmW : TMState := { tokens := [("T1_x", tokW)] }

def s0W : QState := ⟨[], [], tmW⟩

def jW : Job := ⟨"T1_x", "proj", "n1"⟩

def s1W : QState := (enqueueFn "n1" "T1_x" "proj" s0W).2

def s2W : QState :=
  ⟨[], addActive jW.tokenId s1W.active, (updateStatus jW.tokenId "rendering" {} "n2" s1W.tm).2⟩

/-- Concrete persisted file for the C4 witness: one `rendering` token, one
`ready` token whose frame is gone, one `ready` token whose frame exists. -/
def tokRen : Token := { tokenId := "R_1", hash := "1", status := "rendering" }

def tokGone : Token :=
  { tokenId := "G_2", hash := "2", status := "ready", renderFirstFrame := some "gone.png" }

def tokKept : Token :=
  { tokenId := "K_3", hash := "3", status := "ready", renderFirstFrame := some "ok.png" }

def dataW : List (String × Token) := [("R_1", tokRen), ("G_2", tokGone), ("K_3", tokKept)]

def fsExW : String → Bool := fun p => p == "ok.png"

def isOkB : Except String RenderOk → Bool
  | .ok _ => true
  | .error _ => false

def tmInit : TMState := { cacheDir := "/cache", rendersDir := "/cache/Pulse_Renders" }

def sumA1 : Json := .obj [("a", .num 1)]

def descA : TokenData := { precompName := "A", summary := sumA1 }

def descB : TokenData := { precompName := "B", summary := sumA1 }

def bgA1 : TokenData := { precompName := "BG", summary := .obj [("a", .num 1)] }

def bgA2 : TokenData := { precompName := "BG", summary := .obj [("a", .num 2)] }

/-! ## Sanity anchors for the SHA-256 model -/

set_option maxRecDepth 10000 in
example : sha256hex "" = "e3b0c44298fc1c149afbf4c8996fb92427ae41e4649b934ca495991b7852b855" := by
  decide

set_option maxRecDepth 10000 in
example : jsonStr (.obj [("a", .num 1)]) = "\x7b\"a\":1\x7d" := by decide

set_option maxRecDepth 10000 in
example : generateHash (.obj [("a", .num 1)]) = "015abd7f5cc57a2d" := by decide

set_option maxRecDepth 10000 in
example : generateHash (.obj [("a", .num 2)]) = "7e8059f495589fcd" := by decide

/-! ## Helper lemmas about the scheduler steps -/

lemma enqueueFn_active (now tid ppath : String) (s : QState) :
    ((enqueueFn now tid ppath s).2).active = s.active := by
  unfold enqueueFn
  split
  · rfl
  · split <;> rfl

lemma cancelFn_active (now tid : String) (s : QState) :
    ((cancelFn now tid s).2).active = s.active := by
  unfold cancelFn
  split
  · rfl
  · split <;> rfl

lemma addActive_length (tid : String) (l : List String) :
    (addActive tid l).length ≤ l.length + 1 := by
  unfold addActive
  split
  · exact Nat.le_succ _
  · simp

lemma cancelFn_queue_sublist (now tid : String) (s : QState) :
    ((cancelFn now tid s).2).queue.Sublist s.queue := by
  unfold cancelFn
  split
  · exact List.eraseP_sublist _
  · split
    · exact List.Sublist.refl _
    · exact List.Sublist.refl _

lemma step_queue_shape {N : Nat} {s s' : QState} (h : Step N s s') :
    s'.queue.Sublist s.queue ∨ ∃ j, s'.queue = s.queue ++ [j] := by
  cases h with
  | enqueue now tid ppath =>
    unfold enqueueFn
    split
    · exact Or.inl (List.Sublist.refl _)
    · split
      · exact Or.inl (List.Sublist.refl _)
      · exact Or.inr ⟨⟨tid, ppath, now⟩, rfl⟩
  | dispatchMissing j rest hq _ _ =>
    refine Or.inl ?_
    show rest.Sublist s.queue
    rw [hq]
    exact List.sublist_cons_self j rest
  | dispatchSpawn j rest now hq _ _ =>
    refine Or.inl ?_
    show rest.Sublist s.queue
    rw [hq]
    exact List.sublist_cons_self j rest
  | dispatchSpawnFail j rest now errMsg hq _ _ =>
    refine Or.inl ?_
    show rest.Sublist s.queue
    rw [hq]
    exact List.sublist_cons_self j rest
  | complete tid outcome now _ =>
    exact Or.inl (List.Sublist.refl _)
  | killRemove tid =>
    exact Or.inl (List.Sublist.refl _)
  | cancelStep now tid =>
    exact Or.inl (cancelFn_queue_sublist now tid s)
  | clearStep =>
    exact Or.inl (List.nil_sublist _)

lemma step_nodup {N : Nat} {s s' : QState} (h : Step N s s')
    (hn : (s.queue.map Job.tokenId).Nodup) : (s'.queue.map Job.tokenId).Nodup := by
  cases h with
  | enqueue now tid ppath =>
    by_cases h1 : s.queue.any (fun j => j.tokenId == tid) = true
    · unfold enqueueFn
      rw [if_pos h1]
      exact hn
    · by_cases h2 : aerenderCancel tid s.active = true
      · unfold enqueueFn
        rw [if_neg h1, if_pos h2]
        exact hn
      · unfold enqueueFn
        rw [if_neg h1, if_neg h2]
        show (List.map Job.tokenId (s.queue ++ [⟨tid, ppath, now⟩])).Nodup
        have hall : ∀ j ∈ s.queue, j.tokenId ≠ tid := by
          intro j hj heq
          exact h1 (List.any_eq_true.mpr ⟨j, hj, beq_iff_eq.mpr heq⟩)
        simp only [List.map_append, List.map_cons, List.map_nil]
        refine List.Nodup.append hn (List.nodup_singleton _) ?_
        intro x hx hx'
        rcases List.mem_map.mp hx with ⟨j, hj, hjx⟩
        rcases List.mem_singleton.mp hx' with rfl
        exact hall j hj hjx
  | dispatchMissing j rest hq _ _ =>
    rw [hq] at hn
    simp only [List.map_cons, List.nodup_cons] at hn
    exact hn.2
  | dispatchSpawn j rest now hq _ _ =>
    rw [hq] at hn
    simp only [List.map_cons, List.nodup_cons] at hn
    exact hn.2
  | dispatchSpawnFail j rest now errMsg hq _ _ =>
    rw [hq] at hn
    simp only [List.map_cons, List.nodup_cons] at hn
    exact hn.2
  | complete tid outcome now _ => exact hn
  | killRemove tid => exact hn
  | cancelStep now tid =>
    exact ((cancelFn_queue_sublist now tid s).map Job.tokenId).nodup hn
  | clearStep => simp [clearFn]

/-! ## Claim C1 -/

/-- C1: for every sequence of enqueue and drain-loop steps with configured
concurrency `N`, the number of active renders (the size of the Invoker's
active-process map) never exceeds `N`: the drain loop dispatches only when
`getActiveCount()` is strictly below `N`, and each dispatch adds at most
one active process. -/
theorem render_concurrency_ceiling (N : Nat) (s : QState) (h : Reachable N s) :
    s.active.length ≤ N := by
  induction h with
  | init tm => exact Nat.zero_le N
  | step hr hs ih =>
    cases hs with
    | enqueue now tid ppath =>
      rw [enqueueFn_active]
      exact ih
    | dispatchMissing j rest hq hlt hnone => exact ih
    | dispatchSpawn j rest now hq hlt hsome =>
      exact le_trans (addActive_length _ _) hlt
    | dispatchSpawnFail j rest now errMsg hq hlt hsome => exact ih
    | complete tid outcome now hmem =>
      exact le_trans (List.erase_sublist _ _).length_le ih
    | killRemove tid =>
      exact le_trans (List.erase_sublist _ _).length_le ih
    | cancelStep now tid =>
      rw [cancelFn_active]
      exact ih
    | clearStep => exact ih

theorem render_concurrency_ceiling_witness : s2W.active.length ≤ 1 := by
  have h0 : Reachable 1 s0W := Reachable.init tmW
  have h1 : Reachable 1 s1W := Reachable.step h0 (Step.enqueue s0W "n1" "T1_x" "proj")
  have h2 : Reachable 1 s2W :=
    Reachable.step h1
      (Step.dispatchSpawn s1W jW [] "n2" (by decide) (by decide) (by decide))
  exact render_concurrency_ceiling 1 s2W h2

/-! ## Claim C2 -/

/-- C2: at most one Queue Entry exists per `tokenId` at any time. Over every
reachable state the pending list's tokenIds are pairwise distinct;
`enqueue` returns `false` and leaves everything unchanged when the id is
queued or actively rendering, and otherwise appends exactly one entry and
returns `true`; and every step other than an accepting enqueue only removes
entries (any queue growth is a single appended entry, which only
`enqueue` produces). -/
theorem queue_entry_uniqueness (N : Nat) :
    (∀ s : QState, Reachable N s → (s.queue.map Job.tokenId).Nodup) ∧
    (∀ (s : QState) (now tid ppath : String),
      (((s.queue.any fun j => j.tokenId == tid) || aerenderCancel tid s.active) = true →
        enqueueFn now tid ppath s = (false, s)) ∧
      (((s.queue.any fun j => j.tokenId == tid) || aerenderCancel tid s.active) = false →
        enqueueFn now tid ppath s =
          (true, { s with queue := s.queue ++ [⟨tid, ppath, now⟩] }))) ∧
    (∀ s s' : QState, Step N s s' →
      s'.queue.Sublist s.queue ∨ ∃ j, s'.queue = s.queue ++ [j]) := by
  refine ⟨?_, ?_, ?_⟩
  · intro s h
    induction h with
    | init tm => simp
    | step hr hs ih => exact step_nodup hs ih
  · intro s now tid ppath
    constructor
    · intro h
      by_cases h1 : s.queue.any (fun j => j.tokenId == tid) = true
      · unfold enqueueFn
        rw [if_pos h1]
      · have h2 : aerenderCancel tid s.active = true := by
          rcases Bool.or_eq_true_iff.mp h with h' | h'
          · exact absurd h' h1
          · exact h'
        unfold enqueueFn
        rw [if_neg h1, if_pos h2]
    · intro h
      have h' := Bool.or_eq_false_iff.mp h
      unfold enqueueFn
      rw [if_neg (by simp [h'.1]), if_neg (by simp [h'.2])]
  · intro s s' hs
    exact step_queue_shape hs

theorem queue_entry_uniqueness_witness :
    (s1W.queue.map Job.tokenId).Nodup ∧
    enqueueFn "n2" "T1_x" "proj" s1W = (false, s1W) := by
  constructor
  · exact (queue_entry_uniqueness 1).1 s1W
      (Reachable.step (Reachable.init tmW) (Step.enqueue s0W "n1" "T1_x" "proj"))
  · exact ((queue_entry_uniqueness 1).2.1 s1W "n2" "T1_x" "proj").1 (by decide)

/-! ## Token-map lemmas -/

lemma findTok_cons_pos (p : String × Token) (ps : List (String × Token)) (tid : String)
    (hp : (p.1 == tid) = true) : findTok (p :: ps) tid = some p.2 := by
  rw [findTok, if_pos hp]

lemma findTok_cons_neg (p : String × Token) (ps : List (String × Token)) (tid : String)
    (hp : (p.1 == tid) = false) : findTok (p :: ps) tid = findTok ps tid := by
  rw [findTok, if_neg (by simp [hp])]

lemma findTok_map_replace (tokens : List (String × Token)) (tid : String) (t : Token)
    (h : tokens.any (fun p => p.1 == tid) = true) :
    findTok (tokens.map (fun p => if p.1 == tid then (tid, t) else p)) tid = some t := by
  induction tokens with
  | nil => simp at h
  | cons p ps ih =>
    simp only [List.map_cons]
    by_cases hp : (p.1 == tid) = true
    · rw [if_pos hp]
      exact findTok_cons_pos (tid, t) _ tid (beq_self_eq_true tid)
    · have hp' : (p.1 == tid) = false := by simpa using hp
      rw [if_neg hp, findTok_cons_neg _ _ _ hp']
      have h' : ps.any (fun p => p.1 == tid) = true := by
        simpa [List.any_cons, hp'] using h
      exact ih h'

lemma findTok_append_new (tokens : List (String × Token)) (tid : String) (t : Token)
    (h : tokens.any (fun p => p.1 == tid) = false) :
    findTok (tokens ++ [(tid, t)]) tid = some t := by
  induction tokens with
  | nil => exact findTok_cons_pos (tid, t) [] tid (beq_self_eq_true tid)
  | cons p ps ih =>
    have hp : (p.1 == tid) = false := by
      by_contra hc
      simp only [Bool.not_eq_false] at hc
      simp [List.any_cons, hc] at h
    have h' : ps.any (fun p => p.1 == tid) = false := by
      simpa [List.any_cons, hp] using h
    rw [List.cons_append, findTok_cons_neg _ _ _ hp]
    exact ih h'

lemma findTok_setTok_self (tokens : List (String × Token)) (tid : String) (t : Token) :
    findTok (setTok tokens tid t) tid = some t := by
  unfold setTok
  by_cases h : tokens.any (fun p => p.1 == tid) = true
  · rw [if_pos h]
    exact findTok_map_replace tokens tid t h
  · rw [if_neg h]
    refine findTok_append_new tokens tid t ?_
    cases hb : tokens.any (fun p => p.1 == tid)
    · rfl
    · exact absurd hb h

/-! ## Claim C7 -/

/-- C7: `updateStatus(tokenId, newStatus, extraFields)` returns a not-found
result (`null`) and changes nothing when no token with `tokenId` exists;
otherwise it sets the token's status to `newStatus`, merges the extra
fields into the token, refreshes `updatedAt`, persists the store, and
returns the updated token. -/
theorem updateStatus_contract (tid status now : String) (e : Extra) (st : TMState) :
    (findTok st.tokens tid = none → updateStatus tid status e now st = (none, st)) ∧
    (∀ t, findTok st.tokens tid = some t →
      ∃ t', updateStatus tid status e now st =
              (some t', saveTokens { st with tokens := setTok st.tokens tid t' }) ∧
        findTok (updateStatus tid status e now st).2.tokens tid = some t' ∧
        t'.status = status ∧
        t'.updatedAt = now ∧
        t'.renderPath = (match e.renderPath with | some v => some v | none => t.renderPath) ∧
        t'.renderDuration =
          (match e.renderDuration with | some v => some v | none => t.renderDuration) ∧
        t'.error = (match e.error with | some v => some v | none => t.error) ∧
        t'.lastError = (match e.lastError with | some v => some v | none => t.lastError) ∧
        t'.cancelled = (match e.cancelled with | some v => some v | none => t.cancelled) ∧
        t'.tokenId = t.tokenId ∧ t'.hash = t.hash ∧ t'.createdAt = t.createdAt ∧
        (updateStatus tid status e now st).2.persisted =
          some (updateStatus tid status e now st).2.tokens) := by
  constructor
  · intro h
    simp [updateStatus, h]
  · intro t h
    refine ⟨mergeExtra { t with status := status, updatedAt := now } e, ?_, ?_, ?_⟩
    · simp [updateStatus, h]
    · simp only [updateStatus, h]
      exact findTok_setTok_self st.tokens tid _
    · simp [updateStatus, h, mergeExtra, saveTokens]

theorem updateStatus_contract_witness :
    ∃ t', updateStatus "T1_x" "dirty" { error := some "boom" } "n3" tmW =
            (some t', saveTokens { tmW with tokens := setTok tmW.tokens "T1_x" t' }) ∧
      findTok (updateStatus "T1_x" "dirty" { error := some "boom" } "n3" tmW).2.tokens
        "T1_x" = some t' ∧
      t'.status = "dirty" ∧
      t'.updatedAt = "n3" ∧
      t'.renderPath = (match (none : Option String) with
        | some v => some v | none => tokW.renderPath) ∧
      t'.renderDuration = (match (none : Option Nat) with
        | some v => some v | none => tokW.renderDuration) ∧
      t'.error = (match some "boom" with | some v => some v | none => tokW.error) ∧
      t'.lastError = (match (none : Option String) with
        | some v => some v | none => tokW.lastError) ∧
      t'.cancelled = (match (none : Option Bool) with
        | some v => some v | none => tokW.cancelled) ∧
      t'.tokenId = tokW.tokenId ∧ t'.hash = tokW.hash ∧ t'.createdAt = tokW.createdAt ∧
      (updateStatus "T1_x" "dirty" { error := some "boom" } "n3" tmW).2.persisted =
        some (updateStatus "T1_x" "dirty" { error := some "boom" } "n3" tmW).2.tokens :=
  (updateStatus_contract "T1_x" "dirty" "n3" { error := some "boom" } tmW).2 tokW (by decide)

/-! ## Claim C6 -/

/-- C6: for every dispatched job, on Invoker success the queue records the
token as `ready` with the render path and render duration attached; on
Invoker failure it records `dirty` with the error message and a failure
timestamp; both are recorded through the Token Store, which persists the
result; the drain loop's `executeRender` traps every failure (it is the
total function modelled here), so no failure escapes the loop. -/
theorem dispatch_outcome_recorded (tid now : String) (st : TMState) (t : Token)
    (h : findTok st.tokens tid = some t) :
    (∀ r : RenderOk,
      ∃ t', findTok (executeRenderUpdate now tid (.ok r) st).tokens tid = some t' ∧
        t'.status = "ready" ∧ t'.renderPath = some r.renderPath ∧
        t'.renderDuration = some r.duration ∧
        (executeRenderUpdate now tid (.ok r) st).persisted =
          some (executeRenderUpdate now tid (.ok r) st).tokens) ∧
    (∀ msg : String,
      ∃ t', findTok (executeRenderUpdate now tid (.error msg) st).tokens tid = some t' ∧
        t'.status = "dirty" ∧ t'.error = some msg ∧ t'.lastError = some now ∧
        (executeRenderUpdate now tid (.error msg) st).persisted =
          some (executeRenderUpdate now tid (.error msg) st).tokens) := by
  constructor
  · intro r
    refine ⟨mergeExtra { t with status := "ready", updatedAt := now }
      { renderPath := some r.renderPath, renderDuration := some r.duration }, ?_, ?_⟩
    · simp only [executeRenderUpdate, updateStatus, h]
      exact findTok_setTok_self st.tokens tid _
    · simp [executeRenderUpdate, updateStatus, h, mergeExtra, saveTokens]
  · intro msg
    refine ⟨mergeExtra { t with status := "dirty", updatedAt := now }
      { error := some msg, lastError := some now }, ?_, ?_⟩
    · simp only [executeRenderUpdate, updateStatus, h]
      exact findTok_setTok_self st.tokens tid _
    · simp [executeRenderUpdate, updateStatus, h, mergeExtra, saveTokens]

lemma setTok_keys (tokens : List (String × Token)) (tid : String) (t : Token) :
    (setTok tokens tid t).map Prod.fst =
      if tokens.any (fun p => p.1 == tid) = true then tokens.map Prod.fst
      else tokens.map Prod.fst ++ [tid] := by
  unfold setTok
  by_cases h : tokens.any (fun p => p.1 == tid) = true
  · rw [if_pos h, if_pos h, List.map_map]
    refine List.map_congr_left ?_
    intro p hp
    simp only [Function.comp_apply]
    by_cases hc : (p.1 == tid) = true
    · rw [if_pos hc]
      exact (eq_of_beq hc).symm
    · rw [if_neg hc]
  · rw [if_neg h, if_neg h]
    simp

lemma setTok_keys_nodup (tokens : List (String × Token)) (tid : String) (t : Token)
    (hn : (tokens.map Prod.fst).Nodup) : ((setTok tokens tid t).map Prod.fst).Nodup := by
  rw [setTok_keys]
  by_cases h : tokens.any (fun p => p.1 == tid) = true
  · rw [if_pos h]
    exact hn
  · rw [if_neg h]
    refine List.Nodup.append hn (List.nodup_singleton _) ?_
    intro a ha hb
    rcases List.mem_singleton.mp hb with rfl
    rcases List.mem_map.mp ha with ⟨p, hp, he⟩
    exact h (List.any_eq_true.mpr ⟨p, hp, beq_iff_eq.mpr he⟩)

lemma foldl_setTok_nodup (data : List (String × Token)) :
    ∀ acc : List (String × Token), (acc.map Prod.fst).Nodup →
      ((data.foldl (fun acc p => setTok acc p.1 p.2) acc).map Prod.fst).Nodup := by
  induction data with
  | nil => exact fun acc h => h
  | cons p ps ih => exact fun acc h => ih _ (setTok_keys_nodup _ _ _ h)

lemma jsMapOfList_keys_nodup (data : List (String × Token)) :
    ((jsMapOfList data).map Prod.fst).Nodup :=
  foldl_setTok_nodup data [] (by simp)

lemma mem_nodup_findTok (tokens : List (String × Token)) (tid : String) (t : Token) :
    (tokens.map Prod.fst).Nodup → (tid, t) ∈ tokens → findTok tokens tid = some t := by
  induction tokens with
  | nil => exact fun _ h => absurd h (List.not_mem_nil _)
  | cons p ps ih =>
    intro hn hmem
    simp only [List.map_cons, List.nodup_cons] at hn
    rcases List.mem_cons.mp hmem with rfl | hmem'
    · exact findTok_cons_pos _ _ _ (beq_self_eq_true tid)
    · have hne : (p.1 == tid) = false := by
        refine beq_eq_false_iff_ne.mpr ?_
        intro hEq
        exact hn.1 (hEq ▸ List.mem_map.mpr ⟨(tid, t), hmem', rfl⟩)
      rw [findTok_cons_neg _ _ _ hne]
      exact ih hn.2 hmem'

lemma findTok_map_val (tokens : List (String × Token)) (tid : String) (t : Token)
    (f : Token → Token) :
    findTok tokens tid = some t →
    findTok (tokens.map (fun p => (p.1, f p.2))) tid = some (f t) := by
  induction tokens with
  | nil => intro h; cases h
  | cons p ps ih =>
    intro h
    by_cases hp : (p.1 == tid) = true
    · rw [findTok_cons_pos _ _ _ hp] at h
      rcases Option.some.inj h with rfl
      exact findTok_cons_pos _ _ _ hp
    · have hp' : (p.1 == tid) = false := by simpa using hp
      rw [findTok_cons_neg _ _ _ hp'] at h
      rw [List.map_cons, findTok_cons_neg (p.1, f p.2) _ tid (by exact hp')]
      exact ih h

/-! ## Claim C4 -/

/-- C4: after store initialization over any persisted token file, every
token whose persisted status was `rendering` has status `pending`; every
token whose persisted status was `ready` but whose canonical first-frame
file is absent on disk has status `pending`; every other loaded token
keeps its persisted status (indeed is kept unchanged). -/
theorem load_time_repair (st : TMState) (data : List (String × Token))
    (fsEx : String → Bool) (tid : String) (t : Token)
    (hmem : (tid, t) ∈ jsMapOfList data) :
    findTok (loadTokens st (.content data) fsEx).tokens tid = some (repairTok fsEx t) ∧
    (t.status = "rendering" → (repairTok fsEx t).status = "pending") ∧
    (t.status = "ready" → rffExists fsEx t = false →
      (repairTok fsEx t).status = "pending") ∧
    (t.status ≠ "rendering" → (t.status = "ready" → rffExists fsEx t = true) →
      repairTok fsEx t = t) := by
  refine ⟨?_, ?_, ?_, ?_⟩
  · exact findTok_map_val _ tid t (repairTok fsEx)
      (mem_nodup_findTok _ tid t (jsMapOfList_keys_nodup data) hmem)
  · intro h
    simp [repairTok, h]
  · intro h1 h2
    simp [repairTok, h1, h2]
  · intro h1 h2
    by_cases hr : t.status = "ready"
    · simp [repairTok, hr, h2 hr]
    · have hb1 : (t.status == "ready") = false := beq_eq_false_iff_ne.mpr hr
      have hb2 : (t.status == "rendering") = false := beq_eq_false_iff_ne.mpr h1
      simp [repairTok, hb1, hb2]

theorem load_time_repair_witness :
    findTok (loadTokens {} (.content dataW) fsExW).tokens "R_1" =
      some (repairTok fsExW tokRen) ∧
    (tokRen.status = "rendering" → (repairTok fsExW tokRen).status = "pending") ∧
    (tokRen.status = "ready" → rffExists fsExW tokRen = false →
      (repairTok fsExW tokRen).status = "pending") ∧
    (tokRen.status ≠ "rendering" → (tokRen.status = "ready" →
      rffExists fsExW tokRen = true) → repairTok fsExW tokRen = tokRen) :=
  load_time_repair {} dataW fsExW "R_1" tokRen (by decide)

/-! ## Claim C10 -/

/-- C10: store initialization is total for every state of the persisted
tokens file: an absent file leaves the in-memory map as it was, a read or
parse failure resets the map to empty (silently discarding previously
persisted tokens), and parsed content replaces the map by the repaired
loaded entries. -/
theorem load_never_throws (st : TMState) (fsEx : String → Bool) (msg : String) :
    loadTokens st .absent fsEx = st ∧
    loadTokens st (.failed msg) fsEx = { st with tokens := [] } ∧
    ∀ data, (loadTokens st (.content data) fsEx).tokens =
      (jsMapOfList data).map (fun p => (p.1, repairTok fsEx p.2)) :=
  ⟨rfl, rfl, fun _ => rfl⟩

/-! ## Order lemmas for the filename sort -/

lemma charListLe_refl (a : List Char) : charListLe a a = true := by
  induction a with
  | nil => rfl
  | cons c cs ih =>
    unfold charListLe
    rw [if_neg (lt_irrefl c), if_pos (beq_self_eq_true c)]
    exact ih

lemma charListLe_total (a b : List Char) : charListLe a b = true ∨ charListLe b a = true := by
  induction a generalizing b with
  | nil => exact Or.inl rfl
  | cons c cs ih =>
    cases b with
    | nil => exact Or.inr rfl
    | cons d ds =>
      rcases lt_trichotomy c d with h | h | h
      · refine Or.inl ?_
        unfold charListLe
        rw [if_pos h]
      · subst h
        rcases ih ds with h' | h'
        · refine Or.inl ?_
          unfold charListLe
          rw [if_neg (lt_irrefl c), if_pos (beq_self_eq_true c)]
          exact h'
        · refine Or.inr ?_
          unfold charListLe
          rw [if_neg (lt_irrefl c), if_pos (beq_self_eq_true c)]
          exact h'
      · refine Or.inr ?_
        unfold charListLe
        rw [if_pos h]

lemma charListLe_trans (a b c : List Char) (hab : charListLe a b = true)
    (hbc : charListLe b c = true) : charListLe a c = true := by
  induction a generalizing b c with
  | nil => rfl
  | cons x xs ih =>
    cases b with
    | nil => exact absurd hab (by simp [charListLe])
    | cons y ys =>
      cases c with
      | nil => exact absurd hbc (by simp [charListLe])
      | cons z zs =>
        unfold charListLe at hab hbc ⊢
        by_cases hxy : x < y
        · rw [if_pos hxy] at hab
          by_cases hyz : y < z
          · rw [if_pos (lt_trans hxy hyz)]
          · rw [if_neg hyz] at hbc
            by_cases hyz' : (y == z) = true
            · have : y = z := eq_of_beq hyz'
              subst this
              rw [if_pos hxy]
            · rw [if_neg hyz'] at hbc
              cases hbc
        · rw [if_neg hxy] at hab
          by_cases hxy' : (x == y) = true
          · have : x = y := eq_of_beq hxy'
            subst this
            rw [if_pos hxy'] at hab
            by_cases hyz : x < z
            · rw [if_pos hyz]
            · rw [if_neg hyz] at hbc ⊢
              by_cases hyz' : (x == z) = true
              · rw [if_pos hyz'] at hbc ⊢
                exact ih ys zs hab hbc
              · rw [if_neg hyz'] at hbc
                cases hbc
          · rw [if_neg hxy'] at hab
            cases hab

lemma strLe_refl (a : String) : strLe a a = true := charListLe_refl a.data

lemma strLe_total (a b : String) : strLe a b = true ∨ strLe b a = true :=
  charListLe_total a.data b.data

lemma strLe_trans (a b c : String) (hab : strLe a b = true) (hbc : strLe b c = true) :
    strLe a c = true :=
  charListLe_trans a.data b.data c.data hab hbc

lemma mem_insertLe (x y : String) (l : List String) :
    y ∈ insertLe x l ↔ y = x ∨ y ∈ l := by
  induction l with
  | nil => simp [insertLe]
  | cons z zs ih =>
    unfold insertLe
    by_cases h : strLe x z = true
    · rw [if_pos h]
      simp [List.mem_cons]
    · rw [if_neg h]
      simp only [List.mem_cons, ih]
      tauto

lemma mem_sortStr (l : List String) (y : String) : y ∈ sortStr l ↔ y ∈ l := by
  induction l with
  | nil => simp [sortStr]
  | cons x xs ih =>
    show y ∈ insertLe x (sortStr xs) ↔ _
    rw [mem_insertLe]
    simp [ih, List.mem_cons]

lemma pairwise_insertLe (x : String) (l : List String)
    (h : l.Pairwise (fun a b => strLe a b = true)) :
    (insertLe x l).Pairwise (fun a b => strLe a b = true) := by
  induction l with
  | nil => simp [insertLe]
  | cons z zs ih =>
    rcases List.pairwise_cons.mp h with ⟨hz, hzs⟩
    unfold insertLe
    by_cases hle : strLe x z = true
    · rw [if_pos hle]
      refine List.pairwise_cons.mpr ⟨?_, h⟩
      intro a ha
      rcases List.mem_cons.mp ha with rfl | ha'
      · exact hle
      · exact strLe_trans x z a hle (hz a ha')
    · rw [if_neg hle]
      have hzx : strLe z x = true := by
        rcases strLe_total x z with h' | h'
        · exact absurd h' hle
        · exact h'
      refine List.pairwise_cons.mpr ⟨?_, ih hzs⟩
      intro a ha
      rcases (mem_insertLe x a zs).mp ha with rfl | ha'
      · exact hzx
      · exact hz a ha'

lemma pairwise_sortStr (l : List String) :
    (sortStr l).Pairwise (fun a b => strLe a b = true) := by
  induction l with
  | nil => simp [sortStr]
  | cons x xs ih => exact pairwise_insertLe x (sortStr xs) ih

lemma sortStr_head_min (l : List String) (x : String) (rest : List String)
    (h : sortStr l = x :: rest) : x ∈ l ∧ ∀ g ∈ l, strLe x g = true := by
  constructor
  · exact (mem_sortStr l x).mp (h ▸ List.mem_cons_self x rest)
  · intro g hg
    have hg' : g ∈ sortStr l := (mem_sortStr l g).mpr hg
    rw [h] at hg'
    rcases List.mem_cons.mp hg' with rfl | hg''
    · exact strLe_refl g
    · have hp := pairwise_sortStr l
      rw [h] at hp
      exact (List.pairwise_cons.mp hp).1 g hg''

/-! ## Claim C5 -/

lemma string_append_data (a b : String) : (a ++ b).data = a.data ++ b.data := by
  cases a
  cases b
  rfl

lemma isPrefixChars_append (n t u : List Char) (h : isPrefixChars n t = true) :
    isPrefixChars n (t ++ u) = true := by
  induction n generalizing t with
  | nil => rfl
  | cons c cs ih =>
    cases t with
    | nil => exact absurd h (by simp [isPrefixChars])
    | cons d ds =>
      simp only [isPrefixChars, Bool.and_eq_true] at h
      simp only [List.cons_append, isPrefixChars, Bool.and_eq_true]
      exact ⟨h.1, ih ds h.2⟩

lemma containsSub_append_left (n h1 h2 : List Char) (h : containsSub n h1 = true) :
    containsSub n (h1 ++ h2) = true := by
  induction h1 with
  | nil =>
    simp only [containsSub, List.isEmpty_iff] at h
    subst h
    cases h2 with
    | nil => rfl
    | cons c cs =>
      simp [containsSub, isPrefixChars]
  | cons c cs ih =>
    simp only [containsSub, Bool.or_eq_true] at h
    rcases h with h | h
    · simp only [List.cons_append, containsSub, Bool.or_eq_true]
      exact Or.inl (isPrefixChars_append n (c :: cs) h2 h)
    · simp only [List.cons_append, containsSub, Bool.or_eq_true]
      exact Or.inr (ih h)

lemma generic_ne_silent (s : String) :
    ("aerender exited with code " ++ s) ≠ silentFailureMsg := by
  intro h
  have hd := congrArg String.data h
  rw [string_append_data] at hd
  have h1 : (("aerender exited with code ").data ++ s.data).head? = some 'a' := by
    rw [show ("aerender exited with code ").data =
      'a' :: ("erender exited with code ").data from rfl]
    rfl
  rw [hd] at h1
  exact absurd h1 (by decide)

lemma classify_ne_silent (code : Int) (o e : String) :
    classifyError code o e ≠ silentFailureMsg := by
  unfold classifyError
  repeat' split
  · decide
  · decide
  · decide
  · decide
  · exact generic_ne_silent _

lemma framePattern_imageExt (f : String) (h : isFramePattern f = true) :
    hasImageExt f = true := by
  unfold isFramePattern at h
  unfold hasImageExt
  cases hs : splitLastDot f.data with
  | none => rw [hs] at h; exact Bool.noConfusion h
  | some be =>
    obtain ⟨b, e⟩ := be
    rw [hs] at h
    have h' : framePatternBody b e = true := h
    show imageExts.contains (String.mk (e.map asciiLower)) = true
    by_cases hc : frameExts.contains (String.mk (e.map asciiLower)) = true
    · have hmem : String.mk (e.map asciiLower) ∈ frameExts :=
        List.mem_of_elem_eq_true hc
      simp only [frameExts, List.mem_cons, List.mem_singleton,
        List.not_mem_nil, or_false] at hmem
      rcases hmem with he | he | he | he <;> rw [he] <;> decide
    · unfold framePatternBody at h'
      rw [if_neg hc] at h'
      exact Bool.noConfusion h'

lemma findFirstFrame_spec (dir : String) (files : List String) (p : String)
    (h : findFirstFrame dir files = some p) :
    ∃ f, f ∈ files ∧ p = joinPath dir f ∧ hasImageExt f = true ∧
      ((∃ g ∈ files, isFramePattern g = true) →
        isFramePattern f = true ∧
        ∀ g ∈ files, isFramePattern g = true → strLe f g = true) ∧
      ((∀ g ∈ files, isFramePattern g = false) →
        ∀ g ∈ files, hasImageExt g = true → strLe f g = true) := by
  unfold findFirstFrame at h
  cases hs : sortStr (files.filter isFramePattern) with
  | cons f fs =>
    rw [hs] at h
    have hp : p = joinPath dir f := (Option.some.inj h).symm
    have hmin := sortStr_head_min _ f fs hs
    have hf := List.mem_filter.mp hmin.1
    refine ⟨f, hf.1, hp, framePattern_imageExt f hf.2, ?_, ?_⟩
    · intro _
      exact ⟨hf.2, fun g hg hpg => hmin.2 g (List.mem_filter.mpr ⟨hg, hpg⟩)⟩
    · intro hall
      have := hall f hf.1
      rw [hf.2] at this
      cases this
  | nil =>
    rw [hs] at h
    cases hi : sortStr (files.filter hasImageExt) with
    | nil => rw [hi] at h; cases h
    | cons f fs =>
      rw [hi] at h
      have hp : p = joinPath dir f := (Option.some.inj h).symm
      have hmin := sortStr_head_min _ f fs hi
      have hf := List.mem_filter.mp hmin.1
      refine ⟨f, hf.1, hp, hf.2, ?_, ?_⟩
      · rintro ⟨g, hg, hpg⟩
        have : g ∈ sortStr (files.filter isFramePattern) :=
          (mem_sortStr _ g).mpr (List.mem_filter.mpr ⟨hg, hpg⟩)
        rw [hs] at this
        cases this
      · intro _
        exact fun g hg hig => hmin.2 g (List.mem_filter.mpr ⟨hg, hig⟩)

/-- C5: with exit code 0, the render resolves successfully iff a first
output frame is found in the render directory; the successful result
carries that frame; when no frame is found the render fails (despite the
zero exit code) with the silent-failure message — distinct from every
non-zero-exit classification — and the handler's log output points at the
captured `render.log`; and the frame search is: filename-pattern match,
lexicographic sort, first match wins, falling back to any recognized image
extension when no pattern matches. -/
theorem silent_failure_contract (files : List String) (stdout stderr dir tid : String)
    (dur : Nat) :
    (isOkB (closeHandler 0 files stdout stderr dir tid dur).outcome = true ↔
      (findFirstFrame dir files).isSome = true) ∧
    (∀ p, findFirstFrame dir files = some p →
      (closeHandler 0 files stdout stderr dir tid dur).outcome = .ok ⟨p, dur⟩) ∧
    (findFirstFrame dir files = none →
      (closeHandler 0 files stdout stderr dir tid dur).outcome = .error silentFailureMsg ∧
      ∃ l ∈ (closeHandler 0 files stdout stderr dir tid dur).logs,
        strContains l "render.log" = true) ∧
    (∀ c : Int, c ≠ 0 →
      (closeHandler c files stdout stderr dir tid dur).outcome =
        .error (classifyError c stdout stderr) ∧
      classifyError c stdout stderr ≠ silentFailureMsg) ∧
    (∀ p, findFirstFrame dir files = some p →
      ∃ f, f ∈ files ∧ p = joinPath dir f ∧ hasImageExt f = true ∧
        ((∃ g ∈ files, isFramePattern g = true) →
          isFramePattern f = true ∧
          ∀ g ∈ files, isFramePattern g = true → strLe f g = true) ∧
        ((∀ g ∈ files, isFramePattern g = false) →
          ∀ g ∈ files, hasImageExt g = true → strLe f g = true)) := by
  refine ⟨?_, ?_, ?_, ?_, ?_⟩
  · unfold closeHandler
    rw [if_pos rfl]
    cases hf : findFirstFrame dir files <;> simp [hf, isOkB]
  · intro p hp
    unfold closeHandler
    rw [if_pos rfl, hp]
  · intro hf
    unfold closeHandler
    rw [if_pos rfl, hf]
    refine ⟨rfl, "Check render.log in: " ++ dir, by simp, ?_⟩
    show containsSub ("render.log").data (("Check render.log in: " ++ dir).data) = true
    rw [string_append_data]
    exact containsSub_append_left _ _ _ (by decide)
  · intro c hc
    unfold closeHandler
    rw [if_neg hc]
    exact ⟨rfl, classify_ne_silent c stdout stderr⟩
  · intro p hp
    exact findFirstFrame_spec dir files p hp

theorem silent_failure_contract_witness :
    ((0 : Int) ≠ 0 → False) ∧
    (closeHandler 0 ["frame_00002.png", "frame_00001.png", "render.log", "zz.txt"]
        "" "" "/out" "T1_x" 5).outcome = .ok ⟨"/out/frame_00001.png", 5⟩ ∧
    (closeHandler 0 ["render.log"] "" "" "/out" "T1_x" 5).outcome =
      .error silentFailureMsg := by
  refine ⟨fun h => h rfl, ?_, ?_⟩
  · exact (silent_failure_contract
      ["frame_00002.png", "frame_00001.png", "render.log", "zz.txt"]
      "" "" "/out" "T1_x" 5).2.1 "/out/frame_00001.png" (by decide)
  · exact ((silent_failure_contract ["render.log"] "" "" "/out" "T1_x" 5).2.2.1
      (by decide)).1

/-! ## Claim C8 -/

/-- C8: `Queue.cancel(tokenId)` removes a still-pending entry and returns
`true` without touching the Token Store; when the id is not pending it
delegates to the Invoker's cancel and, when a live process was found, sets
the token to `pending` with `cancelled: true`; the Invoker's cancel
returns whether a process was found, so with no matching active process
the whole call returns `false` and changes nothing. -/
theorem cancel_contract (now tid : String) (s : QState) :
    (s.queue.any (fun j => j.tokenId == tid) = true →
      cancelFn now tid s =
        (true, { s with queue := s.queue.eraseP (fun j => j.tokenId == tid) }) ∧
      ((cancelFn now tid s).2).tm = s.tm) ∧
    (s.queue.any (fun j => j.tokenId == tid) = false →
      s.active.contains tid = true →
      (cancelFn now tid s).1 = true ∧
      ((cancelFn now tid s).2).queue = s.queue ∧
      (∀ t, findTok s.tm.tokens tid = some t →
        ∃ t', findTok ((cancelFn now tid s).2).tm.tokens tid = some t' ∧
          t'.status = "pending" ∧ t'.cancelled = some true)) ∧
    (s.queue.any (fun j => j.tokenId == tid) = false →
      s.active.contains tid = false →
      cancelFn now tid s = (false, s)) ∧
    aerenderCancel tid s.active = s.active.contains tid := by
  refine ⟨?_, ?_, ?_, rfl⟩
  · intro h
    constructor
    · unfold cancelFn
      rw [if_pos h]
    · unfold cancelFn
      rw [if_pos h]
  · intro h1 h2
    have hq : ¬ s.queue.any (fun j => j.tokenId == tid) = true := by simp [h1]
    refine ⟨?_, ?_, ?_⟩
    · unfold cancelFn
      rw [if_neg hq, if_pos (show aerenderCancel tid s.active = true from h2)]
    · unfold cancelFn
      rw [if_neg hq, if_pos (show aerenderCancel tid s.active = true from h2)]
    · intro t ht
      refine ⟨mergeExtra { t with status := "pending", updatedAt := now }
        { cancelled := some true }, ?_, rfl, rfl⟩
      unfold cancelFn
      rw [if_neg hq, if_pos (show aerenderCancel tid s.active = true from h2)]
      simp only [updateStatus, ht]
      exact findTok_setTok_self s.tm.tokens tid _
  · intro h1 h2
    have hq : ¬ s.queue.any (fun j => j.tokenId == tid) = true := by simp [h1]
    have ha : ¬ aerenderCancel tid s.active = true := by
      unfold aerenderCancel
      rw [h2]
      exact Bool.false_ne_true
    unfold cancelFn
    rw [if_neg hq, if_neg ha]

theorem cancel_contract_witness :
    cancelFn "n5" "T1_x" s1W =
      (true, { s1W with queue := s1W.queue.eraseP (fun j => j.tokenId == "T1_x") }) ∧
    ((cancelFn "n5" "T1_x" s1W).2).tm = s1W.tm :=
  (cancel_contract "n5" "T1_x" s1W).1 (by decide)

theorem dispatch_outcome_recorded_witness :
    ∃ t', findTok (executeRenderUpdate "n4" "T1_x"
        (.ok ⟨"out/frame_00001.png", 3⟩) tmW).tokens "T1_x" = some t' ∧
      t'.status = "ready" ∧ t'.renderPath = some "out/frame_00001.png" ∧
      t'.renderDuration = some 3 ∧
      (executeRenderUpdate "n4" "T1_x" (.ok ⟨"out/frame_00001.png", 3⟩) tmW).persisted =
        some (executeRenderUpdate "n4" "T1_x" (.ok ⟨"out/frame_00001.png", 3⟩) tmW).tokens :=
  (dispatch_outcome_recorded "T1_x" "n4" tmW tokW (by decide)).1 ⟨"out/frame_00001.png", 3⟩

/-! ## Claims C3 and C9 -/

lemma createToken_find (d : TokenData) (now : String) (st : TMState) :
    findTok (createToken d now st).2.tokens
      (sanitizeName d.precompName ++ "_" ++ generateHash d.summary) =
      some (createToken d now st).1 := by
  unfold createToken
  cases hf : findTok st.tokens
      (sanitizeName d.precompName ++ "_" ++ generateHash d.summary) with
  | some ex =>
    simp only [hf]
  | none =>
    simp only [hf]
    exact findTok_setTok_self st.tokens _ _

set_option maxRecDepth 100000 in
/-- C3 counterexample: the claim quantifies over all descriptors with
identical `summary`, but the tokenId also contains the descriptor's
(sanitized) name: two descriptors sharing the summary `\x7b"a":1\x7d` with
names `A` and `B` receive distinct tokenIds from consecutive
`createToken` calls. -/
theorem create_token_summary_only_cex :
    descA.summary = descB.summary ∧
    (createToken descB "t1" (createToken descA "t0" tmInit).2).1.tokenId ≠
      (createToken descA "t0" tmInit).1.tokenId := by
  constructor
  · rfl
  · decide

/-- C3 (amended): for all descriptors with identical `summary` and
identical name (`precompName`), the second `createToken` call returns the
token of the first call unchanged, leaves the store state unchanged (no
second entry, no save), and in particular yields the same `tokenId`. -/
theorem create_token_idempotent (d1 d2 : TokenData) (st : TMState) (n1 n2 : String)
    (hsum : d1.summary = d2.summary) (hname : d1.precompName = d2.precompName) :
    createToken d2 n2 (createToken d1 n1 st).2 =
      ((createToken d1 n1 st).1, (createToken d1 n1 st).2) ∧
    (createToken d2 n2 (createToken d1 n1 st).2).1.tokenId =
      (createToken d1 n1 st).1.tokenId := by
  have htid : sanitizeName d2.precompName ++ "_" ++ generateHash d2.summary =
      sanitizeName d1.precompName ++ "_" ++ generateHash d1.summary := by
    rw [hsum, hname]
  have hfind := createToken_find d1 n1 st
  have hmain : createToken d2 n2 (createToken d1 n1 st).2 =
      ((createToken d1 n1 st).1, (createToken d1 n1 st).2) := by
    conv_lhs => rw [createToken]
    rw [htid, hfind]
  exact ⟨hmain, by rw [hmain]⟩

theorem create_token_idempotent_witness :
    createToken descA "t1" (createToken descA "t0" tmInit).2 =
      ((createToken descA "t0" tmInit).1, (createToken descA "t0" tmInit).2) ∧
    (createToken descA "t1" (createToken descA "t0" tmInit).2).1.tokenId =
      (createToken descA "t0" tmInit).1.tokenId :=
  create_token_idempotent descA descA tmInit "t0" "t1" rfl rfl

set_option maxRecDepth 100000 in
/-- C9 counterexample: the claimed form `BG_<8-hex-chars>` would make the
tokenId 11 characters long, but `generateHash` keeps 16 hex characters
(`substring(0, 16)` of the digest), so the actual tokenId is
`BG_015abd7f5cc57a2d`, of length 19. -/
theorem token_id_hash_length_cex :
    (createToken bgA1 "t0" tmInit).1.tokenId = "BG_015abd7f5cc57a2d" ∧
    ((createToken bgA1 "t0" tmInit).1.tokenId).length ≠ "BG_".length + 8 := by
  constructor
  · decide
  · decide

set_option maxRecDepth 100000 in
/-- C9 (amended): two calls of `createToken(\x7bname:"BG", summary:\x7ba:1\x7d\x7d)`
both return the tokenId `"BG_" ++ generateHash \x7ba:1\x7d` — the name, an
underscore, and the 16-hex-character fingerprint of the summary — while
`createToken(\x7bname:"BG", summary:\x7ba:2\x7d\x7d)` returns a tokenId with the
same name prefix but a different hash suffix. -/
theorem token_id_scenario :
    (createToken bgA1 "t0" tmInit).1.tokenId = "BG_" ++ generateHash bgA1.summary ∧
    (createToken bgA1 "t1" (createToken bgA1 "t0" tmInit).2).1.tokenId =
      (createToken bgA1 "t0" tmInit).1.tokenId ∧
    (generateHash bgA1.summary).length = 16 ∧
    (generateHash bgA1.summary).data.all
      (fun c => isDigitC c || ('a' ≤ c && c ≤ 'f')) = true ∧
    (createToken bgA2 "t2"
        (createToken bgA1 "t1" (createToken bgA1 "t0" tmInit).2).2).1.tokenId =
      "BG_" ++ generateHash bgA2.summary ∧
    generateHash bgA2.summary ≠ generateHash bgA1.summary := by
  refine ⟨by decide, by decide, by decide, by decide, by decide, by decide⟩

end Pulse
